import Mathlib

/-!
Shallow embedding of the data-transformation logic of the crate-astro-tutorial
repository, together with proofs of the specified properties.

Two components carry the repository's own logic:

* `DataCleanup`: the partition retention-policy processor of
  `dags/data_cleanup_dag.py` (`delete_partition`, `reallocate_partition`,
  `process_partition`, `map_policy`, `process_partitions`).
* `NycTaxi`: the missing-file resolver and ingestion loop of
  `dags/nyc_taxi_dag.py` (`clean_data_urls`, `identitfy_missing_urls`,
  `process_new_files`).

Side effects are made explicit: each Python function that logs messages and
hands SQL statements to `PostgresOperator(...).execute` is embedded as a pure
function returning the ordered list of events (log lines and executed SQL
actions) it produces.  The SQL statement templates under `include/` are not
part of the sources; an executed statement is therefore recorded as a
structured action carrying exactly the values the Python code interpolates
into the template.
-/

namespace DataCleanup

/-- A retention-policy record, as built by `map_policy` from one result tuple.
All eight fields are the strings taken from positions 0-7 of the tuple. -/
structure Partition where
  schema_name : String
  table_name : String
  table_fqn : String
  column_name : String
  partition_value : String
  strategy : String
  reallocation_attribute_name : String
  reallocation_attribute_value : String
deriving DecidableEq, Repr

/-- A SQL action handed to the database.  Each constructor records the values
the Python code interpolates into the corresponding `include/*.sql` template:
`delete` gets `{table}`, `{column}`, `{value}`; `reallocate` additionally gets
`{attribute_name}`, `{attribute_value}`; the tracking update (`track`) gets
only `{schema}`, `{table}` and `{partition_value}`. -/
inductive Action where
  | delete (table column value : String)
  | reallocate (table column value attribute_name attribute_value : String)
  | track (schema table partition_value : String)
deriving DecidableEq, Repr

/-- One observable step of the processor: a log line at info or warning
level, or an executed SQL action. -/
inductive Event where
  | info (msg : String)
  | warning (msg : String)
  | execute (a : Action)
deriving DecidableEq, Repr

/-- The SQL actions among a list of events, in order. -/
def actionsOf (events : List Event) : List Action :=
  events.filterMap fun e =>
    match e with
    | Event.execute a => some a
    | _ => none

/-- `delete_partition`: logs, then executes `data_cleanup_delete.sql`
formatted with the record's fully-qualified table, column and value. -/
def delete_partition (partition : Partition) : List Event :=
  [Event.info ("Deleting partition " ++ partition.column_name ++ " = "
      ++ partition.partition_value ++ " for table " ++ partition.table_fqn),
   Event.execute (Action.delete partition.table_fqn partition.column_name
      partition.partition_value)]

/-- `reallocate_partition`: logs, executes `data_cleanup_reallocate.sql`
formatted with table/column/value and the target attribute name/value, then
executes `data_cleanup_reallocate_tracking.sql` formatted with the record's
table name, schema name and partition value. -/
def reallocate_partition (partition : Partition) : List Event :=
  [Event.info ("Reallocating partition " ++ partition.column_name ++ " = "
      ++ partition.partition_value ++ " for table " ++ partition.table_fqn
      ++ " to " ++ partition.reallocation_attribute_name ++ " = "
      ++ partition.reallocation_attribute_value),
   Event.execute (Action.reallocate partition.table_fqn partition.column_name
      partition.partition_value partition.reallocation_attribute_name
      partition.reallocation_attribute_value),
   Event.execute (Action.track partition.schema_name partition.table_name
      partition.partition_value)]

/-- `process_partition`: dispatch on the record's strategy string. -/
def process_partition (partition : Partition) : List Event :=
  if partition.strategy = "delete" then
    delete_partition partition
  else if partition.strategy = "reallocate" then
    reallocate_partition partition
  else
    [Event.warning ("Ignoring unknown strategy \"" ++ partition.strategy
        ++ "\" for table " ++ partition.table_fqn)]

/-- `map_policy`: builds the record from positions 0-7 of a result tuple.
Python raises `IndexError` when the tuple is shorter than 8 fields; this is
modelled as `none`. -/
def map_policy : List String → Option Partition
  | s0 :: s1 :: s2 :: s3 :: s4 :: s5 :: s6 :: s7 :: _ =>
      some ⟨s0, s1, s2, s3, s4, s5, s6, s7⟩
  | _ => none

/-- `process_partitions`: the loop over the policy tuples.  Returns the
events emitted before the loop finishes or dies, together with `true` when
the whole batch was processed and `false` when an `IndexError` in
`map_policy` aborted it. -/
def process_partitions : List (List String) → List Event × Bool
  | [] => ([], true)
  | t :: rest =>
      match map_policy t with
      | none => ([], false)
      | some p =>
          let r := process_partitions rest
          (process_partition p ++ r.1, r.2)

/-- Concrete reallocate-strategy record used to examine the tracking action. -/
def cexColOne : Partition :=
  ⟨"doc", "tbl", "doc.tbl", "col_one", "2021-01-01", "reallocate", "zone", "cold"⟩

/-- The same record except for the partition column. -/
def cexColTwo : Partition :=
  ⟨"doc", "tbl", "doc.tbl", "col_two", "2021-01-01", "reallocate", "zone", "cold"⟩

/-- C1, counterexample: the tracking-update action is NOT recorded against the
record's partition column.  Two reallocate records that differ only in
`column_name` produce the identical tracking action, which carries only the
schema name, the table name and the partition value. -/
theorem c1_tracking_ignores_column :
    cexColOne.column_name ≠ cexColTwo.column_name ∧
    cexColOne.strategy = "reallocate" ∧ cexColTwo.strategy = "reallocate" ∧
    (actionsOf (process_partition cexColOne))[1]? =
      some (Action.track "doc" "tbl" "2021-01-01") ∧
    (actionsOf (process_partition cexColOne))[1]? =
      (actionsOf (process_partition cexColTwo))[1]? := by
  decide

/-- C1 (amended): a reallocate-strategy record emits exactly two actions in
order — the reallocation of the identified partition to the target attribute
name/value, then a tracking update whose recorded value equals the record's
input partition value, keyed by the record's schema and table (not by the
partition column). -/
theorem c1_reallocate_two_actions (p : Partition)
    (h : p.strategy = "reallocate") :
    actionsOf (process_partition p) =
      [Action.reallocate p.table_fqn p.column_name p.partition_value
         p.reallocation_attribute_name p.reallocation_attribute_value,
       Action.track p.schema_name p.table_name p.partition_value] := by
  simp [process_partition, h, reallocate_partition, actionsOf]

/-- C1, witness: the amended statement at a concrete reallocate record. -/
theorem c1_reallocate_two_actions_witness :
    actionsOf (process_partition cexColOne) =
      [Action.reallocate "doc.tbl" "col_one" "2021-01-01" "zone" "cold",
       Action.track "doc" "tbl" "2021-01-01"] :=
  c1_reallocate_two_actions cexColOne rfl

/-- C2: a delete-strategy record emits exactly one action — a delete against
the record's fully-qualified table, partition column and partition value —
and nothing else (in particular no tracking update). -/
theorem c2_delete_single_action (p : Partition)
    (h : p.strategy = "delete") :
    actionsOf (process_partition p) =
      [Action.delete p.table_fqn p.column_name p.partition_value] := by
  simp [process_partition, h, delete_partition, actionsOf]

/-- C2, witness: the statement at a concrete delete record. -/
theorem c2_delete_single_action_witness :
    actionsOf
        (process_partition ⟨"doc", "t", "doc.t", "day", "2020-01-01", "delete", "", ""⟩) =
      [Action.delete "doc.t" "day" "2020-01-01"] :=
  c2_delete_single_action ⟨"doc", "t", "doc.t", "day", "2020-01-01", "delete", "", ""⟩ rfl

/-- C3: a record whose strategy is neither "delete" nor "reallocate" emits
zero actions, exactly one warning-level diagnostic, no failure, and the loop
continues with the remaining records of the batch exactly as if the record
had not been there. -/
theorem c3_unknown_strategy_skipped (p : Partition)
    (h1 : p.strategy ≠ "delete") (h2 : p.strategy ≠ "reallocate") :
    actionsOf (process_partition p) = [] ∧
    process_partition p =
      [Event.warning ("Ignoring unknown strategy \"" ++ p.strategy
          ++ "\" for table " ++ p.table_fqn)] ∧
    (∀ (t : List String) (rest : List (List String)), map_policy t = some p →
      process_partitions (t :: rest) =
        (process_partition p ++ (process_partitions rest).1,
         (process_partitions rest).2)) := by
  refine ⟨?_, ?_, ?_⟩
  · simp [process_partition, h1, h2, actionsOf]
  · simp [process_partition, h1, h2]
  · intro t rest ht
    simp [process_partitions, ht]

/-- C3, witness: a concrete unknown-strategy record inside a batch. -/
theorem c3_unknown_strategy_skipped_witness :
    actionsOf
        (process_partition ⟨"s", "t", "s.t", "c", "v", "archive", "", ""⟩) = [] ∧
    process_partitions [["s", "t", "s.t", "c", "v", "archive", "", ""]] =
      (process_partition ⟨"s", "t", "s.t", "c", "v", "archive", "", ""⟩
         ++ (process_partitions []).1, (process_partitions []).2) :=
  ⟨(c3_unknown_strategy_skipped ⟨"s", "t", "s.t", "c", "v", "archive", "", ""⟩
      (by decide) (by decide)).1,
   (c3_unknown_strategy_skipped ⟨"s", "t", "s.t", "c", "v", "archive", "", ""⟩
      (by decide) (by decide)).2.2 ["s", "t", "s.t", "c", "v", "archive", "", ""] [] rfl⟩

/-- C9: strategy dispatch is by exact, case-sensitive string comparison: any
strategy other than the literal strings "delete" and "reallocate" — in
particular "DELETE", "Delete" and " delete" — produces zero actions. -/
theorem c9_case_sensitive_dispatch :
    (∀ p : Partition, p.strategy ≠ "delete" → p.strategy ≠ "reallocate" →
      actionsOf (process_partition p) = []) ∧
    actionsOf (process_partition ⟨"s", "t", "s.t", "c", "v", "DELETE", "", ""⟩) = [] ∧
    actionsOf (process_partition ⟨"s", "t", "s.t", "c", "v", "Delete", "", ""⟩) = [] ∧
    actionsOf (process_partition ⟨"s", "t", "s.t", "c", "v", " delete", "", ""⟩) = [] ∧
    actionsOf (process_partition ⟨"s", "t", "s.t", "c", "v", "delete ", "", ""⟩) = [] := by
  refine ⟨?_, by decide, by decide, by decide, by decide⟩
  intro p h1 h2
  simp [process_partition, h1, h2, actionsOf]

/-- C9, witness: the universally quantified part applied to a concrete
record with strategy "DELETE". -/
theorem c9_case_sensitive_dispatch_witness :
    actionsOf (process_partition ⟨"w", "t", "w.t", "c", "v", "DELETE", "", ""⟩) = [] :=
  c9_case_sensitive_dispatch.1 ⟨"w", "t", "w.t", "c", "v", "DELETE", "", ""⟩
    (by decide) (by decide)

/-- A tuple shorter than 8 fields makes `map_policy` fail (Python: IndexError). -/
theorem map_policy_short {t : List String} (h : t.length < 8) :
    map_policy t = none := by
  rcases t with _ | ⟨s0, _ | ⟨s1, _ | ⟨s2, _ | ⟨s3, _ | ⟨s4, _ | ⟨s5, _ | ⟨s6, _ | ⟨s7, rest⟩⟩⟩⟩⟩⟩⟩⟩
  all_goals first
    | rfl
    | (exfalso; simp [List.length] at h; try omega)

/-- A tuple with at least 8 fields maps to the record built from its first
eight positions, in order. -/
theorem map_policy_long {t : List String} (h : 8 ≤ t.length) :
    map_policy t =
      some ⟨t.getD 0 "", t.getD 1 "", t.getD 2 "", t.getD 3 "",
            t.getD 4 "", t.getD 5 "", t.getD 6 "", t.getD 7 ""⟩ := by
  rcases t with _ | ⟨s0, _ | ⟨s1, _ | ⟨s2, _ | ⟨s3, _ | ⟨s4, _ | ⟨s5, _ | ⟨s6, _ | ⟨s7, rest⟩⟩⟩⟩⟩⟩⟩⟩
  all_goals first
    | rfl
    | (exfalso; simp [List.length] at h; try omega)

/-- C7: events of an earlier policy record all precede events of a later one
(processing a concatenation of batches concatenates their event lists, as
long as the first part does not abort), and within a single reallocate
record the tracking action comes strictly after the reallocation action. -/
theorem c7_cross_record_ordering :
    (∀ xs ys : List (List String), (process_partitions xs).2 = true →
      (process_partitions (xs ++ ys)).1 =
        (process_partitions xs).1 ++ (process_partitions ys).1) ∧
    (∀ p : Partition, p.strategy = "reallocate" →
      ∃ i j : Nat, i < j ∧
        (actionsOf (process_partition p))[i]? =
          some (Action.reallocate p.table_fqn p.column_name p.partition_value
            p.reallocation_attribute_name p.reallocation_attribute_value) ∧
        (actionsOf (process_partition p))[j]? =
          some (Action.track p.schema_name p.table_name p.partition_value)) := by
  constructor
  · intro xs ys
    induction xs with
    | nil => intro _; simp [process_partitions]
    | cons t xs ih =>
        intro h
        cases hm : map_policy t with
        | none => simp [process_partitions, hm] at h
        | some p =>
            have h2 : (process_partitions xs).2 = true := by
              simpa [process_partitions, hm] using h
            simp [process_partitions, hm, ih h2, List.append_assoc]
  · intro p h
    refine ⟨0, 1, by omega, ?_, ?_⟩ <;>
      simp [process_partition, h, reallocate_partition, actionsOf]

/-- C7, witness: the ordering statements at concrete batches and a concrete
reallocate record. -/
theorem c7_cross_record_ordering_witness :
    (process_partitions ([["s", "t", "s.t", "c", "1", "delete", "", ""]]
        ++ [["s", "t", "s.t", "c", "2", "delete", "", ""]])).1 =
      (process_partitions [["s", "t", "s.t", "c", "1", "delete", "", ""]]).1 ++
      (process_partitions [["s", "t", "s.t", "c", "2", "delete", "", ""]]).1 ∧
    (∃ i j : Nat, i < j ∧
      (actionsOf (process_partition
          ⟨"a", "b", "a.b", "c", "2022", "reallocate", "n", "v"⟩))[i]? =
        some (Action.reallocate "a.b" "c" "2022" "n" "v") ∧
      (actionsOf (process_partition
          ⟨"a", "b", "a.b", "c", "2022", "reallocate", "n", "v"⟩))[j]? =
        some (Action.track "a" "b" "2022")) :=
  ⟨c7_cross_record_ordering.1 [["s", "t", "s.t", "c", "1", "delete", "", ""]]
      [["s", "t", "s.t", "c", "2", "delete", "", ""]] (by decide),
   c7_cross_record_ordering.2 ⟨"a", "b", "a.b", "c", "2022", "reallocate", "n", "v"⟩ rfl⟩

/-- C10: `map_policy` reads positions 0-7 of the tuple in the fixed order
schema, table, fully-qualified table, column, partition value, strategy,
reallocation attribute name, reallocation attribute value; it succeeds on
every tuple with at least 8 fields and fails on any shorter tuple, and such
a failure aborts the batch (records after the short tuple are never
processed and the run is marked failed) instead of skipping the record. -/
theorem c10_map_policy_positional (t : List String) :
    (8 ≤ t.length →
      map_policy t =
        some ⟨t.getD 0 "", t.getD 1 "", t.getD 2 "", t.getD 3 "",
              t.getD 4 "", t.getD 5 "", t.getD 6 "", t.getD 7 ""⟩) ∧
    (t.length < 8 → map_policy t = none) ∧
    (∀ pre post : List (List String), t.length < 8 →
      (∀ u ∈ pre, (map_policy u).isSome = true) →
      process_partitions (pre ++ t :: post) = ((process_partitions pre).1, false)) := by
  refine ⟨fun h => map_policy_long h, fun h => map_policy_short h, ?_⟩
  intro pre post hlen
  induction pre with
  | nil =>
      intro _
      simp [process_partitions, map_policy_short hlen]
  | cons u pre ih =>
      intro hvalid
      obtain ⟨p, hp⟩ := Option.isSome_iff_exists.mp (hvalid u (by simp))
      have hrest : ∀ v ∈ pre, (map_policy v).isSome = true := fun v hv =>
        hvalid v (by simp [hv])
      simp [process_partitions, hp, ih hrest]

/-- C10, witness: a 2-field tuple fails to map and aborts a concrete batch
after the records preceding it, while an 8-field tuple maps positionally. -/
theorem c10_map_policy_positional_witness :
    map_policy ["s", "t", "s.t", "c", "v", "delete", "n", "w"] =
      some ⟨"s", "t", "s.t", "c", "v", "delete", "n", "w"⟩ ∧
    map_policy ["a", "b"] = none ∧
    process_partitions ([["s", "t", "s.t", "c", "v", "delete", "n", "w"]]
        ++ ["a", "b"] :: [["z", "z", "z", "z", "z", "delete", "z", "z"]]) =
      ((process_partitions [["s", "t", "s.t", "c", "v", "delete", "n", "w"]]).1, false) :=
  ⟨(c10_map_policy_positional ["s", "t", "s.t", "c", "v", "delete", "n", "w"]).1 (by decide),
   (c10_map_policy_positional ["a", "b"]).2.1 (by decide),
   (c10_map_policy_positional ["a", "b"]).2.2
     [["s", "t", "s.t", "c", "v", "delete", "n", "w"]]
     [["z", "z", "z", "z", "z", "delete", "z", "z"]] (by decide) (by decide)⟩

end DataCleanup

namespace NycTaxi

/-- Start-of-list match: `leadsWith n h` is true when `h` begins with `n`. -/
def leadsWith : List Char → List Char → Bool
  | [], _ => true
  | _ :: _, [] => false
  | a :: as, b :: bs => (a == b) && leadsWith as bs

/-- Python's substring containment test `needle in hay`, on character lists:
true when `needle` occurs contiguously inside `hay`. -/
def hasSub (needle : List Char) : List Char → Bool
  | [] => needle.isEmpty
  | c :: rest => leadsWith needle (c :: rest) || hasSub needle rest

theorem leadsWith_iff (n h : List Char) :
    leadsWith n h = true ↔ ∃ t, h = n ++ t := by
  induction n generalizing h with
  | nil => simp [leadsWith]
  | cons a as ih =>
      cases h with
      | nil => simp [leadsWith]
      | cons b bs =>
          rw [leadsWith, Bool.and_eq_true, beq_iff_eq, ih]
          constructor
          · rintro ⟨rfl, t, rfl⟩
            exact ⟨t, rfl⟩
          · rintro ⟨t, ht⟩
            injection ht with h1 h2
            exact ⟨h1.symm, t, h2⟩

theorem hasSub_iff (n h : List Char) :
    hasSub n h = true ↔ ∃ p q, h = p ++ n ++ q := by
  induction h with
  | nil =>
      rw [hasSub, List.isEmpty_iff]
      constructor
      · rintro rfl
        exact ⟨[], [], rfl⟩
      · rintro ⟨p, q, hpq⟩
        rcases List.append_eq_nil.mp hpq.symm with ⟨hpn, hq⟩
        rcases List.append_eq_nil.mp hpn with ⟨hp, hn⟩
        exact hn
  | cons c rest ih =>
      rw [hasSub, Bool.or_eq_true, leadsWith_iff, ih]
      constructor
      · rintro (⟨t, ht⟩ | ⟨p, q, hpq⟩)
        · exact ⟨[], t, by simpa using ht⟩
        · exact ⟨c :: p, q, by simp [hpq]⟩
      · rintro ⟨p, q, hpq⟩
        cases p with
        | nil => exact Or.inl ⟨q, by simpa using hpq⟩
        | cons x xs =>
            simp only [List.cons_append, List.cons_eq_cons] at hpq
            exact Or.inr ⟨xs, q, hpq.2⟩

/-- `clean_data_urls`: split the fetched text on newline characters and keep
the lines containing "yellow", unmodified. -/
def clean_data_urls (raw : String) : List String :=
  (raw.splitOn "\n").filter (fun element => hasSub "yellow".toList element.toList)

/-- `identitfy_missing_urls` (name as in the source): the Python expression
`list(set(data_urls_available) - set(data_urls_processed))`, an unordered
duplicate-free collection modelled as a `Finset`. -/
def identitfy_missing_urls (available processed : List String) : Finset String :=
  available.toFinset \ processed.toFinset

/-- C8: the available-identifier list is exactly the newline-split of the
fetched text filtered to the lines that contain the marker substring
"yellow": the result is a sublist of the split (kept lines unmodified and in
order), and a line is kept precisely when it comes from the split and has a
contiguous occurrence of "yellow". -/
theorem c8_yellow_line_filter (raw : String) :
    List.Sublist (clean_data_urls raw) (raw.splitOn "\n") ∧
    (∀ l : String, l ∈ clean_data_urls raw ↔
      l ∈ raw.splitOn "\n" ∧ ∃ p q, l.toList = p ++ "yellow".toList ++ q) := by
  constructor
  · exact List.filter_sublist _
  · intro l
    simp only [clean_data_urls, List.mem_filter, hasSub_iff]

/-- C4: the resolver returns exactly the set difference available − processed
(membership by exact string equality), it is duplicate-free, it is empty when
the available list is empty, it is the deduplicated available list when the
processed list is empty, and the three concrete examples of the
specification hold. -/
theorem c4_missing_urls_set_difference :
    (∀ (A B : List String) (x : String),
      x ∈ identitfy_missing_urls A B ↔ x ∈ A ∧ x ∉ B) ∧
    (∀ A B : List String, (identitfy_missing_urls A B).val.Nodup) ∧
    (∀ B : List String, identitfy_missing_urls [] B = ∅) ∧
    (∀ A : List String, identitfy_missing_urls A [] = A.toFinset) ∧
    identitfy_missing_urls ["a", "b", "c"] ["b"] = {"a", "c"} ∧
    identitfy_missing_urls [] ["x"] = ∅ ∧
    identitfy_missing_urls ["x"] [] = {"x"} := by
  refine ⟨?_, ?_, ?_, ?_, by decide, by decide, by decide⟩
  · intro A B x
    simp [identitfy_missing_urls]
  · intro A B
    exact (identitfy_missing_urls A B).nodup
  · intro B
    simp [identitfy_missing_urls]
  · intro A
    simp [identitfy_missing_urls]

/-- C5: feeding the resolver's own result back into the processed collection
empties it — if `l` enumerates `resolve available processed`, then
`resolve available (processed ++ l)` is empty. -/
theorem c5_feedback_yields_empty (available processed l : List String)
    (h : l.toFinset = identitfy_missing_urls available processed) :
    identitfy_missing_urls available (processed ++ l) = ∅ := by
  ext x
  have hx : x ∈ l.toFinset ↔ x ∈ identitfy_missing_urls available processed := by
    rw [h]
  simp only [identitfy_missing_urls, Finset.mem_sdiff, List.mem_toFinset,
    List.toFinset_append, Finset.mem_union, Finset.not_mem_empty,
    iff_false] at hx ⊢
  tauto

/-- C5, witness: the statement at the concrete collections
available = ["x", "y"] and processed = ["y"], whose resolver result is the
singleton of "x". -/
theorem c5_feedback_yields_empty_witness :
    identitfy_missing_urls ["x", "y"] (["y"] ++ ["x"]) = ∅ :=
  c5_feedback_yields_empty ["x", "y"] ["y"] ["x"] (by decide)

/-- A SQL action of the taxi ingestion loop.  `copyStaging url` is the
inline `COPY nyc_taxi.load_trips_staging FROM url` statement;
`insertTrips` executes the `include/taxi-insert.sql` statement (modelled
from the spec: that file is not among the sources; per the spec it inserts
from the staging table into the permanent table); `markProcessed url` is
`INSERT INTO nyc_taxi.load_files_processed VALUES (url)`; `purgeStaging` is
`DELETE FROM nyc_taxi.load_trips_staging`. -/
inductive TaxiAction where
  | copyStaging (url : String)
  | insertTrips
  | markProcessed (url : String)
  | purgeStaging
deriving DecidableEq, Repr

/-- One observable step of `process_new_files`: the per-URL log line or an
executed SQL action. -/
inductive TaxiEvent where
  | info (msg : String)
  | execute (a : TaxiAction)
deriving DecidableEq, Repr

/-- The SQL actions among a list of taxi events, in order. -/
def taxiActionsOf (events : List TaxiEvent) : List TaxiAction :=
  events.filterMap fun e =>
    match e with
    | TaxiEvent.execute a => some a
    | _ => none

/-- `process_new_files`: for each missing URL, log it, then execute the four
statements copy-into-staging, insert-into-permanent, mark-processed and
purge-staging, before moving to the next URL. -/
def process_new_files : List String → List TaxiEvent
  | [] => []
  | url :: rest =>
      TaxiEvent.info url ::
      TaxiEvent.execute (TaxiAction.copyStaging url) ::
      TaxiEvent.execute TaxiAction.insertTrips ::
      TaxiEvent.execute (TaxiAction.markProcessed url) ::
      TaxiEvent.execute TaxiAction.purgeStaging ::
      process_new_files rest

/-- C6: the ingestion loop emits, for each missing URL in order, exactly the
four SQL actions copy-into-staging, insert-into-permanent, mark-processed,
purge-staging — the whole four-step block of one URL preceding every action
of the next URL. -/
theorem c6_four_actions_per_url (urls : List String) :
    taxiActionsOf (process_new_files urls) =
      urls.flatMap fun url =>
        [TaxiAction.copyStaging url, TaxiAction.insertTrips,
         TaxiAction.markProcessed url, TaxiAction.purgeStaging] := by
  induction urls with
  | nil => rfl
  | cons u rest ih =>
      simp only [process_new_files, taxiActionsOf, List.filterMap_cons,
        List.flatMap_cons] at ih ⊢
      rw [ih]
      rfl

end NycTaxi
